import Mathlib

/-!
Verification development for the NyayLens rule/keyword retrieval engine:
the fact matcher, severity scorer and evaluation harness described in the
project documentation, together with the frontend request logic of
`frontend/script.js`.

Texts are modelled as lists of characters; scores and metric fractions as
rationals.  The matching and scoring core lives in the backend (not in the
extracted sources), so those components are modelled from the specification;
the frontend functions are translated directly from `frontend/script.js`.
-/

namespace NyayLens

/-! ### Basic text utilities shared by the matcher and the scorer -/

/-- Texts are lists of characters. -/
abbrev Text := List Char

/-- Convert a string literal to the `Text` representation. -/
def str (s : String) : Text := s.data

/-- Whitespace test (space, tab, newline, carriage return). -/
def isWsChar (c : Char) : Bool := c = ' ' || c = '\t' || c = '\n' || c = '\r'

/-- Does `pat` occur at the very beginning of the second list? -/
def startsWithL : Text → Text → Bool
  | [], _ => true
  | _ :: _, [] => false
  | a :: as, b :: bs => a = b && startsWithL as bs

/-- Does `needle` occur as a contiguous substring of the haystack? -/
def occursIn (needle : Text) : Text → Bool
  | [] => needle.isEmpty
  | c :: cs => startsWithL needle (c :: cs) || occursIn needle cs

/-- Collapse runs of whitespace into a single space.  The boolean state
records whether the previous character belonged to a whitespace run. -/
def collapseWsGo : Bool → Text → Text
  | _, [] => []
  | inRun, c :: cs =>
    if isWsChar c then
      (if inRun then collapseWsGo true cs else ' ' :: collapseWsGo true cs)
    else c :: collapseWsGo false cs

/-- Modelled from the spec: text normalization shared by the fact matcher and
the severity scorer (backend code not in the extracted sources) —
"Normalize `issue_text` (lowercase, whitespace-collapse)". -/
def normalize (text : Text) : Text := collapseWsGo false (text.map Char.toLower)

/-! ### Severity scorer data model -/

/-! ### Severity scorer, modelled from the spec (section 4.2) -/

/-- Modelled from the spec: the three fixed severity bands of the severity
scorer's keyword tiers (backend code not in the extracted sources). -/
inductive Tier where
  | CRITICAL
  | HIGH
  | MEDIUM
  deriving DecidableEq

/-- Modelled from the spec: one weighted keyword of a severity tier. -/
structure TierKeyword where
  keyword : Text
  tier : Tier
  weight : ℚ
  deriving DecidableEq

/-- Modelled from the spec: a multiplier rule with its trigger phrases and
multiplicative factor. -/
structure MultiplierRule where
  name : Text
  triggers : List Text
  factor : ℚ
  deriving DecidableEq

/-- Modelled from the spec: the severity scorer's configuration
(keyword tiers, multiplier rules, and the minimum text length below which
the failure policy for "empty/too-short text" applies). -/
structure SeverityConfig where
  tiers : List TierKeyword
  multipliers : List MultiplierRule
  minTextLength : Nat

/-- Modelled from the spec: `SeverityResult` with the final score, matched
keywords with tier weights, and applied multipliers with factors. -/
structure SeverityResult where
  score : ℚ
  keywords_found : List (Text × ℚ)
  multipliers_applied : List (Text × ℚ)
  deriving DecidableEq

/-- Maximum of two rationals, written so the kernel can evaluate it. -/
def qmax (a b : ℚ) : ℚ := if a ≤ b then b else a

/-- Clamp a rational to the interval `[0, 1]`, written so the kernel can
evaluate it. -/
def clamp01 (x : ℚ) : ℚ := if x ≤ 0 then 0 else if 1 ≤ x then 1 else x

/-- Keywords (across all tiers) found as substrings of the normalized text. -/
def matchedKeywords (cfg : SeverityConfig) (t : Text) : List TierKeyword :=
  cfg.tiers.filter (fun kw => occursIn kw.keyword t)

/-- Maximum tier weight of a list of matched keywords (`0` when none). -/
def maxWeight (l : List TierKeyword) : ℚ :=
  l.foldr (fun kw acc => qmax kw.weight acc) 0

/-- Number of distinct CRITICAL-tier keywords among the matched keywords. -/
def criticalCount (l : List TierKeyword) : Nat :=
  ((l.filter (fun kw => kw.tier = Tier.CRITICAL)).map (fun kw => kw.keyword)).dedup.length

/-- Multiplier rules whose trigger phrase occurs in the normalized text,
in config-declared order. -/
def appliedMultipliers (cfg : SeverityConfig) (t : Text) : List MultiplierRule :=
  cfg.multipliers.filter (fun m => m.triggers.any (fun p => occursIn p t))

/-- The pre-bonus running score: the maximum weight found among matched
keywords (not a sum). -/
def preBonus (cfg : SeverityConfig) (t : Text) : ℚ := maxWeight (matchedKeywords cfg t)

/-- Product of the factors of a list of multiplier rules. -/
def factorProduct (l : List MultiplierRule) : ℚ :=
  l.foldr (fun m acc => m.factor * acc) 1

/-- The running score after the mass-incident adjustment: the pre-bonus
maximum gains `+0.15` exactly when two or more distinct CRITICAL-tier
keywords are matched. -/
def bonusedScore (cfg : SeverityConfig) (t : Text) : ℚ :=
  if 2 ≤ criticalCount (matchedKeywords cfg t) then preBonus cfg t + 15/100
  else preBonus cfg t

/-- Modelled from the spec: the severity scorer `score(issue_text,
keyword_tiers, multiplier_rules) -> SeverityResult` (backend code not in the
extracted sources).  Steps: normalize; record tier weights of matched
keywords; start from the maximum matched weight; add the mass-incident bonus
of `+0.15` when two or more distinct CRITICAL keywords are matched; apply
multipliers sequentially in declared order when a trigger phrase is present;
clamp to `[0, 1]`.  Empty/too-short text yields the zero result. -/
def severityScore (cfg : SeverityConfig) (text : Text) : SeverityResult :=
  if text = [] ∨ text.length < cfg.minTextLength then ⟨0, [], []⟩
  else
    ⟨clamp01 ((appliedMultipliers cfg (normalize text)).foldl (fun s m => s * m.factor)
        (bonusedScore cfg (normalize text))),
      (matchedKeywords cfg (normalize text)).map (fun kw => (kw.keyword, kw.weight)),
      (appliedMultipliers cfg (normalize text)).map (fun m => (m.name, m.factor))⟩

/-- The severity scorer's configuration extended with additional tier
keywords appended after the existing ones. -/
def extendTiers (cfg : SeverityConfig) (extra : List TierKeyword) : SeverityConfig :=
  { cfg with tiers := cfg.tiers ++ extra }

/-! ### Fact matcher, modelled from the spec (section 4.1) -/

/-- Modelled from the spec: a `CrimeFamily` definition of the pattern table
(backend `rag_pipeline.py`, not in the extracted sources).  The regex pattern
is modelled as the precompiled Boolean matcher it denotes; `augmented_terms`
are the matcher terms merged in at load time. -/
structure CrimeFamily where
  id : Text
  regex : Text → Bool
  priority : Nat
  targeted_sections : List Nat
  primary_keywords : List Text
  secondary_keywords : List Text
  augmented_terms : List Text

/-- The union of a family's primary, secondary and augmented keyword sets. -/
def allKeywords (f : CrimeFamily) : List Text :=
  f.primary_keywords ++ f.secondary_keywords ++ f.augmented_terms

/-- Number of distinct keywords of the family occurring as substrings of the
normalized text. -/
def keywordMatchCount (f : CrimeFamily) (t : Text) : Nat :=
  ((allKeywords f).dedup.filter (fun kw => occursIn kw t)).length

/-- Modelled from the spec: the keyword threshold derived from priority,
"1 if priority ≥ 100, else 2". -/
def minKeywordMatches (f : CrimeFamily) : Nat := if 100 ≤ f.priority then 1 else 2

/-- A family is triggered when its regex matches the normalized text and
enough of its keywords occur in it. -/
def triggered (f : CrimeFamily) (t : Text) : Bool :=
  f.regex t && decide (minKeywordMatches f ≤ keywordMatchCount f t)

/-- One entry of a `MatchResult`: a candidate statute section annotated with
the family that produced it, its priority and keyword-match count, and the
family's declaration index in the pattern table. -/
structure Candidate where
  section_id : Nat
  family_id : Text
  priority : Nat
  kwCount : Nat
  declIdx : Nat
  deriving DecidableEq

/-- Candidates contributed by one family at declaration index `i`:
its targeted sections when the family is triggered, nothing otherwise. -/
def famCandidates (f : CrimeFamily) (t : Text) (i : Nat) : List Candidate :=
  if triggered f t then
    f.targeted_sections.map (fun s => ⟨s, f.id, f.priority, keywordMatchCount f t, i⟩)
  else []

/-- Candidates of all families, walking the table in declaration order
starting at index `i`. -/
def candidatesFrom (t : Text) : Nat → List CrimeFamily → List Candidate
  | _, [] => []
  | i, f :: fs => famCandidates f t i ++ candidatesFrom t (i + 1) fs

/-- All candidates of the pattern table for a normalized text. -/
def candidatesOf (table : List CrimeFamily) (t : Text) : List Candidate :=
  candidatesFrom t 0 table

/-- Modelled from the spec: the ranking order on candidates — priority
descending, keyword-match count descending, then declaration order
ascending. -/
def candLE (a b : Candidate) : Prop :=
  b.priority < a.priority ∨
    (a.priority = b.priority ∧
      (b.kwCount < a.kwCount ∨ (a.kwCount = b.kwCount ∧ a.declIdx ≤ b.declIdx)))

instance : DecidableRel candLE := fun a b => by
  unfold candLE
  infer_instance

instance : IsTotal Candidate candLE := ⟨fun a b => by unfold candLE; omega⟩

instance : IsTrans Candidate candLE := ⟨fun a b c => by unfold candLE; omega⟩

/-- Sort candidates by the ranking order. -/
def sortCands (l : List Candidate) : List Candidate := List.insertionSort candLE l

/-- Deduplicate candidates by section id, keeping the first occurrence of
each section; `seen` is the set of section ids already emitted. -/
def dedupGo (seen : List Nat) : List Candidate → List Candidate
  | [] => []
  | c :: cs =>
    if c.section_id ∈ seen then dedupGo seen cs
    else c :: dedupGo (c.section_id :: seen) cs

/-- Deduplicate a ranked candidate list by section id, keeping the
highest-ranked occurrence of each section. -/
def dedupBySection (l : List Candidate) : List Candidate := dedupGo [] l

/-- Modelled from the spec: the fact matcher `match(issue_text,
pattern_table) -> MatchResult` (backend code not in the extracted sources):
normalize, gate each family by regex and keyword threshold, sort candidates
by (priority desc, keyword count desc, declaration order asc) and
deduplicate sections keeping the highest-ranked occurrence. -/
def matchText (table : List CrimeFamily) (text : Text) : List Candidate :=
  dedupBySection (sortCands (candidatesOf table (normalize text)))

/-- Modelled from the spec: a raw crime-family record as read from the
pattern-table file, before regex compilation; `regex_src = none` models a
malformed regex pattern, `some r` a well-formed one denoting matcher `r`. -/
structure RawFamily where
  id : Text
  regex_src : Option (Text → Bool)
  priority : Nat
  targeted_sections : List Nat
  primary_keywords : List Text
  secondary_keywords : List Text
  augmented_terms : List Text

/-- Modelled from the spec: configuration-load-time compilation of one raw
family; a malformed regex is a fatal `ConfigError` at load time. -/
def compileFamily (rf : RawFamily) : Except Text CrimeFamily :=
  match rf.regex_src with
  | none => Except.error (str "ConfigError: malformed regex")
  | some r =>
    Except.ok ⟨rf.id, r, rf.priority, rf.targeted_sections, rf.primary_keywords,
      rf.secondary_keywords, rf.augmented_terms⟩

/-- Modelled from the spec: loading the whole pattern table, aborting on the
first malformed family. -/
def compileTable : List RawFamily → Except Text (List CrimeFamily)
  | [] => Except.ok []
  | rf :: rest =>
    match compileFamily rf, compileTable rest with
    | Except.ok f, Except.ok fs => Except.ok (f :: fs)
    | Except.error e, _ => Except.error e
    | Except.ok _, Except.error e => Except.error e

/-- Did table loading succeed? -/
def compileOk (e : Except Text (List CrimeFamily)) : Bool :=
  match e with
  | Except.ok _ => true
  | Except.error _ => false

/-! ### Evaluation harness, modelled from the spec (section 4.3) -/

/-- Modelled from the spec: a `TrainingExample` restricted to the fields the
metrics read (backend `scripts/eval_fact2law.py`, not in the extracted
sources). -/
structure TrainingExample where
  issue_summary : Text
  applicable_sections : List Nat
  hard_negatives : List Nat

/-- Ranked section predictions of the matcher for one example. -/
def predictions (table : List CrimeFamily) (ex : TrainingExample) : List Nat :=
  (matchText table ex.issue_summary).map (fun c => c.section_id)

/-- Does the example count as a hit at cutoff `k`: some top-`k` prediction
is an applicable section? -/
def hitExample (table : List CrimeFamily) (k : Nat) (ex : TrainingExample) : Bool :=
  ((predictions table ex).take k).any (fun s => ex.applicable_sections.contains s)

/-- Does the example avoid hard negatives at cutoff `k`: no top-`k`
prediction is a hard negative? -/
def avoidNegExample (table : List CrimeFamily) (k : Nat) (ex : TrainingExample) : Bool :=
  ((predictions table ex).take k).all (fun s => ! ex.hard_negatives.contains s)

/-- Modelled from the spec: `hit@k`, the fraction of examples whose top-`k`
predictions intersect the applicable sections. -/
def hitAt (table : List CrimeFamily) (ds : List TrainingExample) (k : Nat) : ℚ :=
  (ds.countP (hitExample table k) : ℚ) / (ds.length : ℚ)

/-- Modelled from the spec: `avoid_neg@k`, the fraction of examples whose
top-`k` predictions contain no hard negative. -/
def avoidNegAt (table : List CrimeFamily) (ds : List TrainingExample) (k : Nat) : ℚ :=
  (ds.countP (avoidNegExample table k) : ℚ) / (ds.length : ℚ)

/-! ### Frontend request logic, from `frontend/script.js` -/

/-- The default backend base URL (`script.js` line 2). -/
def DEFAULT_API_URL : Text := str "http://127.0.0.1:8001"

/-- JavaScript `a || b` for nullable strings: the empty string and `null`
are falsy. -/
def jsOr (a : Option Text) (b : Text) : Text :=
  match a with
  | some s => if s = [] then b else s
  | none => b

/-- Strip all trailing slash characters (`.replace(/\/+$/, "")`). -/
def stripSlashes (s : Text) : Text := (s.reverse.dropWhile (fun c => c == '/')).reverse

/-- `resolveApiBase` from `script.js`: choose the first truthy of the
`api_base_url` localStorage value, `window.API_URL` and the default, strip
trailing slashes, and fall back to the default when that leaves nothing. -/
def resolveApiBase (storageVal windowApiUrl : Option Text) : Text :=
  let fromGlobal : Option Text :=
    match windowApiUrl with
    | some w => if w = [] then none else some w
    | none => none
  let base := stripSlashes (jsOr storageVal (jsOr fromGlobal (jsOr (some DEFAULT_API_URL) [])))
  if base = [] then DEFAULT_API_URL else base

/-- Restatement of `resolveApiBase` following the claim's words: prefer the
localStorage value, then `window.API_URL`, then the default; strip trailing
slashes from the chosen value; fall back to the default if stripping yields
the empty string. -/
def resolveApiBaseSpec (storageVal windowApiUrl : Option Text) : Text :=
  let fromWindow : Text :=
    match windowApiUrl with
    | some w => if w = [] then DEFAULT_API_URL else w
    | none => DEFAULT_API_URL
  let chosen : Text :=
    match storageVal with
    | some s => if s = [] then fromWindow else s
    | none => fromWindow
  let stripped := stripSlashes chosen
  if stripped = [] then DEFAULT_API_URL else stripped

/-- JavaScript `String.prototype.trim` (over the whitespace set modelled
here). -/
def jsTrim (s : Text) : Text := ((s.dropWhile isWsChar).reverse.dropWhile isWsChar).reverse

/-- JavaScript `String.prototype.split` with a single-character separator:
`"".split(",")` is `[""]` and empty fields are kept. -/
def splitOn (sep : Char) : Text → List Text
  | [] => [[]]
  | c :: cs =>
    if c = sep then [] :: splitOn sep cs
    else
      match splitOn sep cs with
      | [] => [[c]]
      | p :: ps => (c :: p) :: ps

/-- `.replace(/\s+/g, "_")`: each maximal whitespace run becomes a single
underscore.  The boolean state records whether the previous character
belonged to a whitespace run. -/
def replaceWsGo : Bool → Text → Text
  | _, [] => []
  | inRun, c :: cs =>
    if isWsChar c then
      (if inRun then replaceWsGo true cs else '_' :: replaceWsGo true cs)
    else c :: replaceWsGo false cs

/-- Replace every whitespace run by one underscore. -/
def replaceWsRuns (s : Text) : Text := replaceWsGo false s

/-- One character of the topic pattern `^[a-z0-9_-]+$`. -/
def isTopicChar (c : Char) : Bool :=
  ('a' ≤ c && c ≤ 'z') || ('0' ≤ c && c ≤ '9') || c = '_' || c = '-'

/-- The filter of `submitCustomArticle`: non-empty and every character in
`[a-z0-9_-]` (the regex `^[a-z0-9_-]+$`). -/
def topicOk (t : Text) : Bool := !t.isEmpty && t.all isTopicChar

/-- Topic parsing of `submitCustomArticle` (`script.js` lines 212-215):
split on commas, trim, lowercase, replace whitespace runs by underscores,
and keep only entries matching the topic pattern. -/
def parseTopics (topicsRaw : Text) : List Text :=
  ((splitOn ',' topicsRaw).map (fun t => replaceWsRuns ((jsTrim t).map Char.toLower))).filter
    topicOk

/-- The JSON payload `submitCustomArticle` posts to `/generate-pil`. -/
structure PilPayload where
  article_summary : Text
  article_text : Option Text
  title : Text
  source : Text
  topics : List Text
  deriving DecidableEq

/-- The observable outcome of one `submitCustomArticle` call up to the fetch
decision: the payload sent (if any) and the status message set last before
returning or fetching. -/
structure SubmitAction where
  payloadSent : Option PilPayload
  statusMsg : Text
  statusType : Text
  deriving DecidableEq

/-- `submitCustomArticle` from `script.js` (lines 188-237), modelled up to
the fetch: the five form fields are read trimmed; the three validation
guards return an error status without sending; otherwise the payload is
built and sent with an info status. -/
def submitCustomArticle (summaryRaw detailsRaw titleRaw sourceRaw topicsRaw : Text) :
    SubmitAction :=
  if jsTrim summaryRaw = [] ∨ (jsTrim summaryRaw).length < 10 then
    ⟨none, str "Case summary is required (min 10 characters)", str "error"⟩
  else if 8000 < (jsTrim summaryRaw).length then
    ⟨none, str "Case summary is too long (max 8000 characters)", str "error"⟩
  else if jsTrim detailsRaw ≠ [] ∧ 12000 < (jsTrim detailsRaw).length then
    ⟨none, str "Full details is too long (max 12000 characters)", str "error"⟩
  else
    ⟨some ⟨jsTrim summaryRaw,
        if jsTrim detailsRaw = [] then none else some (jsTrim detailsRaw),
        if jsTrim titleRaw = [] then str "Custom Submission" else jsTrim titleRaw,
        if jsTrim sourceRaw = [] then str "User Submission" else jsTrim sourceRaw,
        if parseTopics (jsTrim topicsRaw) = [] then [str "general"]
        else parseTopics (jsTrim topicsRaw)⟩,
      str "Generating PIL from custom submission...", str "info"⟩

/-! ### Concrete configurations used by witnesses -/

/-- A multiplier rule for the vulnerable-minors boost of the documentation. -/
def minorsRule : MultiplierRule := ⟨str "minors", [str "minor", str "child"], 13/10⟩

/-- A small severity configuration with one CRITICAL keyword and the minors
multiplier. -/
def exCfg : SeverityConfig :=
  ⟨[⟨str "murder", Tier.CRITICAL, 8/10⟩], [minorsRule], 1⟩

/-- A text containing a multiplier trigger but no severity keyword. -/
def exText : Text := str "the minor was present"

/-- A text containing the CRITICAL keyword but no multiplier trigger. -/
def exMurderText : Text := str "a murder happened today"

/-- A concrete kidnapping crime family for witnesses. -/
def exFam : CrimeFamily :=
  ⟨str "kidnapping", (fun t => occursIn (str "kidnap") t), 120, [137, 138, 139],
    [str "kidnap", str "ransom"], [str "abduct"], []⟩

/-- A text triggering `exFam`. -/
def exKidnapText : Text := str "the child was kidnapped for ransom"

/-- A text triggering nothing in the table `[exFam]`. -/
def exNoMatchText : Text := str "a quiet afternoon in the park"

/-- A raw family whose regex is well-formed. -/
def exRaw : RawFamily :=
  ⟨str "kidnapping", some (fun t => occursIn (str "kidnap") t), 120, [137, 138, 139],
    [str "kidnap", str "ransom"], [str "abduct"], []⟩

/-- A tiny labeled dataset for the evaluation-harness witness. -/
def exDataset : List TrainingExample :=
  [⟨exKidnapText, [137], [64]⟩, ⟨exNoMatchText, [103], [137]⟩]

/-- The payload produced by `submitCustomArticle` on the concrete witness
inputs below. -/
def exPayload : PilPayload :=
  ⟨str "a long enough case summary", none, str "Custom Submission",
    str "User Submission", [str "civil_rights"]⟩

/-! ### Theorems -/

theorem qmax_eq_max (a b : ℚ) : qmax a b = max a b := by
  unfold qmax
  split_ifs with h
  · exact (max_eq_right h).symm
  · exact (max_eq_left (le_of_not_le h)).symm

theorem clamp01_nonneg (x : ℚ) : 0 ≤ clamp01 x := by
  unfold clamp01
  split_ifs with h1 h2
  · exact le_refl 0
  · norm_num
  · exact le_of_not_le h1

theorem clamp01_le_one (x : ℚ) : clamp01 x ≤ 1 := by
  unfold clamp01
  split_ifs with h1 h2
  · norm_num
  · exact le_refl 1
  · exact le_of_not_le h2

theorem foldl_mul_factor (l : List MultiplierRule) :
    ∀ b : ℚ, l.foldl (fun s m => s * m.factor) b = b * factorProduct l := by
  induction l with
  | nil => intro b; simp [factorProduct]
  | cons m ms ih =>
    intro b
    simp only [List.foldl_cons, factorProduct, List.foldr_cons, ih (b * m.factor)]
    ring_nf
    rw [mul_assoc]

theorem foldl_mul_factor_zero (l : List MultiplierRule) :
    l.foldl (fun s m => s * m.factor) 0 = 0 := by
  rw [foldl_mul_factor]
  exact zero_mul _

theorem maxWeight_nonneg (l : List TierKeyword) : 0 ≤ maxWeight l := by
  induction l with
  | nil => simp [maxWeight]
  | cons kw kws ih =>
    simp only [maxWeight, List.foldr_cons] at ih ⊢
    rw [qmax_eq_max]
    exact le_max_of_le_right ih

theorem maxWeight_append (a b : List TierKeyword) :
    maxWeight (a ++ b) = max (maxWeight a) (maxWeight b) := by
  induction a with
  | nil =>
    simp only [List.nil_append, maxWeight, List.foldr_nil]
    exact (max_eq_right (maxWeight_nonneg b)).symm
  | cons kw kws ih =>
    simp only [List.cons_append, maxWeight, List.foldr_cons] at ih ⊢
    rw [qmax_eq_max, qmax_eq_max, ih, max_assoc]

theorem maxWeight_le_of_forall (l : List TierKeyword) (c : ℚ)
    (h0 : 0 ≤ c) (h : ∀ kw ∈ l, kw.weight ≤ c) : maxWeight l ≤ c := by
  induction l with
  | nil => simpa [maxWeight] using h0
  | cons kw kws ih =>
    simp only [maxWeight, List.foldr_cons]
    rw [qmax_eq_max]
    refine max_le (h kw (List.mem_cons_self kw kws)) ?_
    exact ih (fun x hx => h x (List.mem_cons_of_mem kw hx))

theorem matchedKeywords_extendTiers (cfg : SeverityConfig) (extra : List TierKeyword)
    (t : Text) :
    matchedKeywords (extendTiers cfg extra) t =
      matchedKeywords cfg t ++ extra.filter (fun kw => occursIn kw.keyword t) := by
  simp [matchedKeywords, extendTiers, List.filter_append]

theorem criticalCount_append_of_not_critical (a b : List TierKeyword)
    (hb : ∀ kw ∈ b, ¬ kw.tier = Tier.CRITICAL) :
    criticalCount (a ++ b) = criticalCount a := by
  unfold criticalCount
  have hb' : b.filter (fun kw => decide (kw.tier = Tier.CRITICAL)) = [] := by
    rw [List.filter_eq_nil_iff]
    intro kw hkw
    simpa using hb kw hkw
  rw [List.filter_append, hb', List.append_nil]

theorem normalize_nil : normalize [] = [] := rfl

theorem severityScore_of_guard (cfg : SeverityConfig) (text : Text)
    (h : text = [] ∨ text.length < cfg.minTextLength) :
    severityScore cfg text = ⟨0, [], []⟩ := by
  unfold severityScore
  rw [if_pos h]

theorem severityScore_of_not_guard (cfg : SeverityConfig) (text : Text)
    (h : ¬(text = [] ∨ text.length < cfg.minTextLength)) :
    severityScore cfg text =
      ⟨clamp01 ((appliedMultipliers cfg (normalize text)).foldl (fun s m => s * m.factor)
          (bonusedScore cfg (normalize text))),
        (matchedKeywords cfg (normalize text)).map (fun kw => (kw.keyword, kw.weight)),
        (appliedMultipliers cfg (normalize text)).map (fun m => (m.name, m.factor))⟩ := by
  unfold severityScore
  rw [if_neg h]

/-- Claim C1 (amended): for every configuration and input text the severity
score lies in `[0, 1]`; empty or too-short text yields the zero result with
empty keyword and multiplier lists; and text matching zero keywords yields
score `0.0` with empty `keywords_found` (multiplier rules whose trigger
phrases occur in such a text are still recorded in `multipliers_applied`). -/
theorem severity_score_bounds_and_degenerate (cfg : SeverityConfig) (text : Text) :
    (0 ≤ (severityScore cfg text).score ∧ (severityScore cfg text).score ≤ 1)
    ∧ (text = [] ∨ text.length < cfg.minTextLength →
        severityScore cfg text = ⟨0, [], []⟩)
    ∧ (matchedKeywords cfg (normalize text) = [] →
        (severityScore cfg text).score = 0 ∧
          (severityScore cfg text).keywords_found = []) := by
  by_cases h : text = [] ∨ text.length < cfg.minTextLength
  · rw [severityScore_of_guard cfg text h]
    exact ⟨⟨le_refl 0, by norm_num⟩, fun _ => rfl, fun _ => ⟨rfl, rfl⟩⟩
  · rw [severityScore_of_not_guard cfg text h]
    refine ⟨⟨clamp01_nonneg _, clamp01_le_one _⟩, fun hg => absurd hg h, fun hm => ?_⟩
    have hb : bonusedScore cfg (normalize text) = 0 := by
      simp [bonusedScore, preBonus, criticalCount, maxWeight, hm]
    constructor
    · show clamp01 _ = 0
      rw [hb, foldl_mul_factor_zero]
      simp [clamp01]
    · show (matchedKeywords cfg (normalize text)).map _ = []
      rw [hm]
      rfl

/-- Claim C1 counterexample: on a text containing a multiplier trigger
phrase but no severity keyword, the scorer returns score `0.0` with empty
`keywords_found`, yet its `multipliers_applied` list is not empty. -/
theorem severity_zero_keyword_multiplier_cex :
    (severityScore exCfg exText).score = 0
    ∧ (severityScore exCfg exText).keywords_found = []
    ∧ (severityScore exCfg exText).multipliers_applied ≠ [] := by
  have hm : matchedKeywords exCfg (normalize exText) = [] := by decide
  have hg : ¬(exText = [] ∨ exText.length < exCfg.minTextLength) := by decide
  have hne : appliedMultipliers exCfg (normalize exText) ≠ [] := by decide
  rw [severityScore_of_not_guard exCfg exText hg]
  have hb : bonusedScore exCfg (normalize exText) = 0 := by
    simp [bonusedScore, preBonus, criticalCount, maxWeight, hm]
  refine ⟨?_, ?_, ?_⟩
  · show clamp01 _ = 0
    rw [hb, foldl_mul_factor_zero]
    simp [clamp01]
  · show (matchedKeywords exCfg (normalize exText)).map
      (fun kw => (kw.keyword, kw.weight)) = []
    rw [hm]
    rfl
  · show (appliedMultipliers exCfg (normalize exText)).map
      (fun m => (m.name, m.factor)) ≠ []
    intro hcontra
    exact hne (List.map_eq_nil_iff.mp hcontra)

/-- Claim C1 witness: the amended theorem instantiated at the empty text
with a concrete configuration, all hypotheses discharged. -/
theorem severity_score_bounds_and_degenerate_witness :
    (0 ≤ (severityScore exCfg []).score ∧ (severityScore exCfg []).score ≤ 1)
    ∧ severityScore exCfg [] = ⟨0, [], []⟩
    ∧ ((severityScore exCfg []).score = 0 ∧ (severityScore exCfg []).keywords_found = []) := by
  have h := severity_score_bounds_and_degenerate exCfg []
  exact ⟨h.1, h.2.1 (Or.inl rfl), h.2.2 (by decide)⟩

/-- Claim C2: for non-degenerate text the final score is the clamp of the
running maximum plus the mass-incident adjustment of `+0.15` — added exactly
when at least two distinct CRITICAL-tier keywords are matched — multiplied
by the factors of the triggered multipliers; and each configured multiplier
occurs in `multipliers_applied` at most as often as in the configuration,
regardless of how many times its trigger phrases occur in the text. -/
theorem severity_bonus_before_multipliers (cfg : SeverityConfig) (text : Text)
    (x : Text × ℚ) (h : ¬(text = [] ∨ text.length < cfg.minTextLength)) :
    (severityScore cfg text).score =
      clamp01 ((if 2 ≤ criticalCount (matchedKeywords cfg (normalize text))
          then preBonus cfg (normalize text) + 15/100
          else preBonus cfg (normalize text))
        * factorProduct (appliedMultipliers cfg (normalize text)))
    ∧ ((severityScore cfg text).multipliers_applied).count x ≤
        (cfg.multipliers.map (fun m => (m.name, m.factor))).count x := by
  rw [severityScore_of_not_guard cfg text h]
  constructor
  · show clamp01 _ = _
    rw [foldl_mul_factor]
    rfl
  · show ((appliedMultipliers cfg (normalize text)).map _).count x ≤ _
    exact List.Sublist.count_le ((List.filter_sublist _).map _) x

/-- Claim C2 witness: the theorem instantiated at a concrete configuration
and text, the length hypothesis discharged. -/
theorem severity_bonus_before_multipliers_witness :
    (severityScore exCfg exText).score =
      clamp01 ((if 2 ≤ criticalCount (matchedKeywords exCfg (normalize exText))
          then preBonus exCfg (normalize exText) + 15/100
          else preBonus exCfg (normalize exText))
        * factorProduct (appliedMultipliers exCfg (normalize exText)))
    ∧ ((severityScore exCfg exText).multipliers_applied).count (str "minors", 13/10) ≤
        (exCfg.multipliers.map (fun m => (m.name, m.factor))).count (str "minors", 13/10) :=
  severity_bonus_before_multipliers exCfg exText (str "minors", 13/10) (by decide)

/-- Extra non-CRITICAL keywords used by the claim C3 witness. -/
def exExtra : List TierKeyword := [⟨str "killed", Tier.HIGH, 0⟩]

/-- Claim C3: the pre-bonus running score is the maximum matched tier weight
(so, absent the mass-incident condition and multipliers, the final score is
its clamp, not a sum); and extending the configuration with further keywords
of lower or equal weight that are not CRITICAL-tier leaves the score
unchanged — in particular it never increases. -/
theorem severity_max_not_sum (cfg : SeverityConfig) (text : Text)
    (extra : List TierKeyword)
    (hw : ∀ kw ∈ extra, kw.weight ≤ preBonus cfg (normalize text))
    (hc : ∀ kw ∈ extra, ¬ kw.tier = Tier.CRITICAL)
    (hg : ¬(text = [] ∨ text.length < cfg.minTextLength))
    (hnb : criticalCount (matchedKeywords cfg (normalize text)) < 2)
    (hnm : appliedMultipliers cfg (normalize text) = []) :
    (severityScore cfg text).score = clamp01 (preBonus cfg (normalize text))
    ∧ (severityScore (extendTiers cfg extra) text).score = (severityScore cfg text).score := by
  have hmk := matchedKeywords_extendTiers cfg extra (normalize text)
  have hpre : preBonus (extendTiers cfg extra) (normalize text) = preBonus cfg (normalize text) := by
    unfold preBonus
    rw [hmk, maxWeight_append]
    exact max_eq_left (maxWeight_le_of_forall _ _ (maxWeight_nonneg _)
      (fun kw hkw => hw kw (List.mem_of_mem_filter hkw)))
  have hcrit : criticalCount (matchedKeywords (extendTiers cfg extra) (normalize text)) =
      criticalCount (matchedKeywords cfg (normalize text)) := by
    rw [hmk]
    exact criticalCount_append_of_not_critical _ _ (fun kw hkw => hc kw (List.mem_of_mem_filter hkw))
  have hbon : bonusedScore (extendTiers cfg extra) (normalize text) =
      bonusedScore cfg (normalize text) := by
    unfold bonusedScore
    rw [hcrit, hpre]
  have hg2 : ¬(text = [] ∨ text.length < (extendTiers cfg extra).minTextLength) := hg
  constructor
  · rw [severityScore_of_not_guard cfg text hg]
    show clamp01 _ = _
    rw [hnm]
    simp only [List.foldl_nil, bonusedScore, if_neg (by omega :
      ¬ 2 ≤ criticalCount (matchedKeywords cfg (normalize text)))]
  · rw [severityScore_of_not_guard cfg text hg,
      severityScore_of_not_guard (extendTiers cfg extra) text hg2]
    show clamp01 _ = clamp01 _
    have happ : appliedMultipliers (extendTiers cfg extra) (normalize text) =
        appliedMultipliers cfg (normalize text) := rfl
    rw [happ, hbon]

/-- Claim C3 witness: the theorem instantiated at a concrete configuration,
text and keyword extension, all hypotheses discharged. -/
theorem severity_max_not_sum_witness :
    (severityScore exCfg exMurderText).score = clamp01 (preBonus exCfg (normalize exMurderText))
    ∧ (severityScore (extendTiers exCfg exExtra) exMurderText).score =
        (severityScore exCfg exMurderText).score := by
  refine severity_max_not_sum exCfg exMurderText exExtra ?_ (by decide) (by decide) (by decide)
    (by decide)
  intro kw hkw
  have hkw' : kw = ⟨str "killed", Tier.HIGH, 0⟩ := by
    simpa [exExtra] using hkw
  subst hkw'
  exact maxWeight_nonneg _

theorem triggered_iff (f : CrimeFamily) (t : Text) :
    triggered f t = true ↔
      (f.regex t = true ∧ (if 100 ≤ f.priority then 1 else 2) ≤ keywordMatchCount f t) := by
  unfold triggered minKeywordMatches
  rw [Bool.and_eq_true, decide_eq_true_iff]

theorem famCandidates_family_id (f : CrimeFamily) (t : Text) (i : Nat) (c : Candidate)
    (hc : c ∈ famCandidates f t i) : c.family_id = f.id := by
  unfold famCandidates at hc
  split_ifs at hc with h
  · obtain ⟨s, hs, rfl⟩ := List.mem_map.mp hc
    rfl
  · simp at hc

theorem candidatesFrom_family_mem (t : Text) (fams : List CrimeFamily) :
    ∀ (i : Nat) (c : Candidate),
      c ∈ candidatesFrom t i fams → c.family_id ∈ fams.map (fun g => g.id) := by
  induction fams with
  | nil =>
    intro i c hc
    simp [candidatesFrom] at hc
  | cons g gs ih =>
    intro i c hc
    simp only [candidatesFrom] at hc
    rcases List.mem_append.mp hc with h1 | h2
    · rw [List.map_cons, famCandidates_family_id g t i c h1]
      exact List.mem_cons_self _ _
    · exact List.mem_cons_of_mem _ (ih (i + 1) c h2)

theorem sections_in_candidates (t : Text) (fams : List CrimeFamily) :
    ∀ (i : Nat) (f : CrimeFamily) (s : Nat),
      f ∈ fams → triggered f t = true → s ∈ f.targeted_sections →
      (candidatesFrom t i fams).any
        (fun c => c.family_id == f.id && c.section_id == s) = true := by
  induction fams with
  | nil =>
    intro i f s hf
    exact absurd hf (List.not_mem_nil f)
  | cons g gs ih =>
    intro i f s hf htr hs
    simp only [candidatesFrom, List.any_append, Bool.or_eq_true]
    rcases List.mem_cons.mp hf with rfl | hf'
    · left
      rw [List.any_eq_true]
      refine ⟨⟨s, f.id, f.priority, keywordMatchCount f t, i⟩, ?_, ?_⟩
      · unfold famCandidates
        rw [if_pos htr]
        exact List.mem_map.mpr ⟨s, hs, rfl⟩
      · simp
    · right
      exact ih (i + 1) f s hf' htr hs

theorem any_family_iff_triggered (t : Text) (fams : List CrimeFamily) :
    ∀ (i : Nat) (f : CrimeFamily),
      f ∈ fams → (fams.map (fun g => g.id)).Nodup → f.targeted_sections ≠ [] →
      ((candidatesFrom t i fams).any (fun c => c.family_id == f.id) = true ↔
        triggered f t = true) := by
  induction fams with
  | nil =>
    intro i f hf
    exact absurd hf (List.not_mem_nil f)
  | cons g gs ih =>
    intro i f hf hnd hsec
    rw [List.map_cons, List.nodup_cons] at hnd
    obtain ⟨hgid, hnd'⟩ := hnd
    simp only [candidatesFrom, List.any_append, Bool.or_eq_true]
    rcases List.mem_cons.mp hf with rfl | hf'
    · constructor
      · rintro (h1 | h2)
        · rw [List.any_eq_true] at h1
          obtain ⟨c, hc, _⟩ := h1
          unfold famCandidates at hc
          split_ifs at hc with htr
          · exact htr
          · simp at hc
        · exfalso
          rw [List.any_eq_true] at h2
          obtain ⟨c, hc, hcid⟩ := h2
          rw [beq_iff_eq] at hcid
          have := candidatesFrom_family_mem t gs (i + 1) c hc
          rw [hcid] at this
          exact hgid this
      · intro htr
        left
        cases hsl : f.targeted_sections with
        | nil => exact absurd hsl hsec
        | cons s ss =>
          rw [List.any_eq_true]
          refine ⟨⟨s, f.id, f.priority, keywordMatchCount f t, i⟩, ?_, by simp⟩
          unfold famCandidates
          rw [if_pos htr, hsl]
          exact List.mem_map.mpr ⟨s, List.mem_cons_self s ss, rfl⟩
    · have hfid : f.id ∈ gs.map (fun g => g.id) :=
        List.mem_map.mpr ⟨f, hf', rfl⟩
      constructor
      · rintro (h1 | h2)
        · exfalso
          rw [List.any_eq_true] at h1
          obtain ⟨c, hc, hcid⟩ := h1
          rw [beq_iff_eq] at hcid
          rw [famCandidates_family_id g t i c hc] at hcid
          rw [← hcid] at hfid
          exact hgid hfid
        · exact (ih (i + 1) f hf' hnd' hsec).mp h2
      · intro htr
        right
        exact (ih (i + 1) f hf' hnd' hsec).mpr htr

/-- Claim C5: a crime family contributes candidates exactly when its regex
matches the normalized text and the count of its keywords occurring as
substrings reaches the threshold of 1 for priority at least 100 and 2
otherwise; and when it is triggered, each of its targeted sections appears
among the candidates annotated with the family. -/
theorem matcher_family_gate (table : List CrimeFamily) (text : Text) (f : CrimeFamily)
    (s : Nat) (hf : f ∈ table) (hids : (table.map (fun g => g.id)).Nodup)
    (hs : s ∈ f.targeted_sections) :
    ((candidatesOf table (normalize text)).any (fun c => c.family_id == f.id) = true ↔
      (f.regex (normalize text) = true ∧
        (if 100 ≤ f.priority then 1 else 2) ≤ keywordMatchCount f (normalize text)))
    ∧ ((f.regex (normalize text) = true ∧
        (if 100 ≤ f.priority then 1 else 2) ≤ keywordMatchCount f (normalize text)) →
      (candidatesOf table (normalize text)).any
        (fun c => c.family_id == f.id && c.section_id == s) = true) := by
  have hsec : f.targeted_sections ≠ [] := by
    intro hnil
    rw [hnil] at hs
    exact List.not_mem_nil s hs
  constructor
  · rw [← triggered_iff]
    exact any_family_iff_triggered (normalize text) table 0 f hf hids hsec
  · intro hgate
    exact sections_in_candidates (normalize text) table 0 f s hf
      ((triggered_iff f (normalize text)).mpr hgate) hs

/-- Claim C5 witness: the theorem instantiated at a concrete one-family
table and a text triggering it, all hypotheses discharged. -/
theorem matcher_family_gate_witness :
    ((candidatesOf [exFam] (normalize exKidnapText)).any
        (fun c => c.family_id == exFam.id) = true ↔
      (exFam.regex (normalize exKidnapText) = true ∧
        (if 100 ≤ exFam.priority then 1 else 2) ≤
          keywordMatchCount exFam (normalize exKidnapText)))
    ∧ ((exFam.regex (normalize exKidnapText) = true ∧
        (if 100 ≤ exFam.priority then 1 else 2) ≤
          keywordMatchCount exFam (normalize exKidnapText)) →
      (candidatesOf [exFam] (normalize exKidnapText)).any
        (fun c => c.family_id == exFam.id && c.section_id == 137) = true) :=
  matcher_family_gate [exFam] exKidnapText exFam 137 (List.mem_singleton.mpr rfl)
    (by simp) (by decide)

theorem dedupGo_sublist (l : List Candidate) :
    ∀ seen : List Nat, List.Sublist (dedupGo seen l) l := by
  induction l with
  | nil =>
    intro seen
    exact List.Sublist.refl []
  | cons c cs ih =>
    intro seen
    simp only [dedupGo]
    split_ifs with h
    · exact (ih seen).cons c
    · exact (ih (c.section_id :: seen)).cons₂ c

theorem dedupGo_nodup (l : List Candidate) :
    ∀ seen : List Nat,
      ((dedupGo seen l).map (fun c => c.section_id)).Nodup
      ∧ ∀ x ∈ (dedupGo seen l).map (fun c => c.section_id), x ∉ seen := by
  induction l with
  | nil =>
    intro seen
    exact ⟨List.nodup_nil, by simp [dedupGo]⟩
  | cons c cs ih =>
    intro seen
    simp only [dedupGo]
    split_ifs with h
    · exact ih seen
    · obtain ⟨hnd, hnin⟩ := ih (c.section_id :: seen)
      refine ⟨?_, ?_⟩
      · rw [List.map_cons, List.nodup_cons]
        exact ⟨fun hx => (hnin _ hx) (List.mem_cons_self _ _), hnd⟩
      · intro x hx
        rw [List.map_cons, List.mem_cons] at hx
        rcases hx with rfl | hx
        · exact h
        · exact fun hxseen => (hnin x hx) (List.mem_cons_of_mem _ hxseen)

theorem dedupGo_find? (l : List Candidate) :
    ∀ (seen : List Nat) (s : Nat), s ∉ seen →
      (dedupGo seen l).find? (fun c => c.section_id == s) =
        l.find? (fun c => c.section_id == s) := by
  induction l with
  | nil =>
    intro seen s hs
    rfl
  | cons c cs ih =>
    intro seen s hs
    simp only [dedupGo]
    split_ifs with h
    · have hne : ¬ ((fun x : Candidate => x.section_id == s) c) = true := by
        simp only [beq_iff_eq]
        intro he
        rw [he] at h
        exact hs h
      rw [List.find?_cons_of_neg cs hne]
      exact ih seen s hs
    · by_cases he : c.section_id = s
      · have hp : ((fun x : Candidate => x.section_id == s) c) = true := by
          simp only [beq_iff_eq]
          exact he
        rw [List.find?_cons_of_pos (dedupGo (c.section_id :: seen) cs) hp,
          List.find?_cons_of_pos cs hp]
      · have hp : ¬ ((fun x : Candidate => x.section_id == s) c) = true := by
          simp only [beq_iff_eq]
          exact he
        rw [List.find?_cons_of_neg (dedupGo (c.section_id :: seen) cs) hp,
          List.find?_cons_of_neg cs hp]
        refine ih (c.section_id :: seen) s ?_
        intro hmem
        rcases List.mem_cons.mp hmem with h1 | h2
        · exact he h1.symm
        · exact hs h2

/-- Claim C6: the match result is sorted by descending family priority with
ties broken by keyword-match count descending and then by declaration order
ascending; its section ids are pairwise distinct; and for every section id
the kept entry is the first (highest-ranked) entry of the sorted candidate
list carrying that section. -/
theorem matcher_sorted_dedup (table : List CrimeFamily) (text : Text) (s : Nat) :
    (matchText table text).Pairwise candLE
    ∧ ((matchText table text).map (fun c => c.section_id)).Nodup
    ∧ (matchText table text).find? (fun c => c.section_id == s)
        = (sortCands (candidatesOf table (normalize text))).find?
            (fun c => c.section_id == s) := by
  unfold matchText dedupBySection
  refine ⟨?_, (dedupGo_nodup _ []).1, dedupGo_find? _ [] s (List.not_mem_nil s)⟩
  exact List.Pairwise.sublist (dedupGo_sublist _ [])
    (List.sorted_insertionSort candLE (candidatesOf table (normalize text)))

theorem candidatesFrom_eq_nil (t : Text) (fams : List CrimeFamily)
    (h : ∀ f ∈ fams, triggered f t = false) :
    ∀ i : Nat, candidatesFrom t i fams = [] := by
  induction fams with
  | nil =>
    intro i
    rfl
  | cons g gs ih =>
    intro i
    simp only [candidatesFrom]
    rw [ih (fun f hf => h f (List.mem_cons_of_mem g hf)) (i + 1)]
    unfold famCandidates
    rw [if_neg (by simp [h g (List.mem_cons_self g gs)]), List.append_nil]

theorem matchText_eq_nil_of_untriggered (table : List CrimeFamily) (text : Text)
    (h : ∀ f ∈ table, triggered f (normalize text) = false) :
    matchText table text = [] := by
  unfold matchText dedupBySection candidatesOf
  rw [candidatesFrom_eq_nil (normalize text) table h 0]
  rfl

theorem triggered_nil_eq_false (f : CrimeFamily)
    (hkw : ∀ kw ∈ allKeywords f, kw ≠ []) : triggered f [] = false := by
  have hcount : keywordMatchCount f [] = 0 := by
    unfold keywordMatchCount
    rw [List.length_eq_zero, List.filter_eq_nil_iff]
    intro kw hkwmem
    have hne := hkw kw (List.mem_dedup.mp hkwmem)
    cases kw with
    | nil => exact absurd rfl hne
    | cons c cs => simp [occursIn]
  have hdec : decide (minKeywordMatches f ≤ keywordMatchCount f []) = false := by
    rw [decide_eq_false_iff_not, hcount]
    unfold minKeywordMatches
    split_ifs <;> omega
  unfold triggered
  rw [hdec, Bool.and_false]

theorem compileOk_eq_all (raw : List RawFamily) :
    compileOk (compileTable raw) = raw.all (fun rf => rf.regex_src.isSome) := by
  induction raw with
  | nil => rfl
  | cons rf rest ih =>
    cases hr : rf.regex_src with
    | none => simp [compileTable, compileFamily, hr, compileOk]
    | some r =>
      cases hrest : compileTable rest with
      | ok fs =>
        rw [hrest] at ih
        simp only [compileOk] at ih
        simp [compileTable, compileFamily, hr, hrest, compileOk, ← ih]
      | error e =>
        rw [hrest] at ih
        simp only [compileOk] at ih
        simp [compileTable, compileFamily, hr, hrest, compileOk, ← ih]

/-- Claim C7: matching is total and yields the empty result for the empty
string (under the configuration invariant that keywords are non-empty) and
for text triggering no family; the scorer returns the zero result for the
empty string instead of an error; and a pattern table loads successfully
exactly when every family's regex is well-formed, so a malformed regex is
rejected at configuration load time and matching itself never sees one. -/
theorem matcher_total_empty_result (table : List CrimeFamily) (text : Text)
    (cfg : SeverityConfig) (raw : List RawFamily)
    (hkw : ∀ f ∈ table, ∀ kw ∈ allKeywords f, kw ≠ [])
    (huntrig : ∀ f ∈ table, triggered f (normalize text) = false) :
    matchText table [] = []
    ∧ matchText table text = []
    ∧ severityScore cfg [] = ⟨0, [], []⟩
    ∧ compileOk (compileTable raw) = raw.all (fun rf => rf.regex_src.isSome) := by
  refine ⟨?_, matchText_eq_nil_of_untriggered table text huntrig,
    severityScore_of_guard cfg [] (Or.inl rfl), compileOk_eq_all raw⟩
  apply matchText_eq_nil_of_untriggered
  intro f hf
  rw [normalize_nil]
  exact triggered_nil_eq_false f (hkw f hf)

/-- Claim C7 witness: the theorem instantiated at a concrete table, an
untriggering text, a concrete scorer configuration and a well-formed raw
table, all hypotheses discharged. -/
theorem matcher_total_empty_result_witness :
    matchText [exFam] [] = []
    ∧ matchText [exFam] exNoMatchText = []
    ∧ severityScore exCfg [] = ⟨0, [], []⟩
    ∧ compileOk (compileTable [exRaw]) = [exRaw].all (fun rf => rf.regex_src.isSome) := by
  refine matcher_total_empty_result [exFam] exNoMatchText exCfg [exRaw] ?_ ?_
  · intro f hf
    rw [List.mem_singleton] at hf
    subst hf
    decide
  · intro f hf
    rw [List.mem_singleton] at hf
    subst hf
    decide

theorem mem_take_of_le {α : Type} {x : α} (l : List α) :
    ∀ k1 k2 : Nat, k1 ≤ k2 → x ∈ l.take k1 → x ∈ l.take k2 := by
  induction l with
  | nil =>
    intro k1 k2 h hx
    simp [List.take_nil] at hx
  | cons a as ih =>
    intro k1 k2 h hx
    cases k1 with
    | zero => simp [List.take] at hx
    | succ k1 =>
      cases k2 with
      | zero => omega
      | succ k2 =>
        rw [List.take_succ_cons] at hx ⊢
        rcases List.mem_cons.mp hx with rfl | hx
        · exact List.mem_cons_self _ _
        · exact List.mem_cons_of_mem _ (ih k1 k2 (by omega) hx)

theorem countP_mono_of_imp {α : Type} (p q : α → Bool) (l : List α)
    (h : ∀ a ∈ l, p a = true → q a = true) : l.countP p ≤ l.countP q := by
  induction l with
  | nil => simp [List.countP_nil]
  | cons a as ih =>
    rw [List.countP_cons, List.countP_cons]
    have hle := ih (fun b hb hpb => h b (List.mem_cons_of_mem a hb) hpb)
    by_cases hpa : p a = true
    · rw [if_pos hpa, if_pos (h a (List.mem_cons_self a as) hpa)]
      omega
    · rw [if_neg hpa]
      split_ifs <;> omega

/-- Claim C4: for a fixed pattern table and dataset, `hit@k` is
non-decreasing and `avoid_neg@k` is non-increasing in the cutoff. -/
theorem eval_metrics_monotone (table : List CrimeFamily) (ds : List TrainingExample)
    (k1 k2 : Nat) (h : k1 ≤ k2) :
    hitAt table ds k1 ≤ hitAt table ds k2
    ∧ avoidNegAt table ds k2 ≤ avoidNegAt table ds k1 := by
  have hhit : ds.countP (hitExample table k1) ≤ ds.countP (hitExample table k2) := by
    apply countP_mono_of_imp
    intro ex _ hex
    unfold hitExample at hex ⊢
    rw [List.any_eq_true] at hex ⊢
    obtain ⟨s, hsmem, hps⟩ := hex
    exact ⟨s, mem_take_of_le _ k1 k2 h hsmem, hps⟩
  have havoid : ds.countP (avoidNegExample table k2) ≤ ds.countP (avoidNegExample table k1) := by
    apply countP_mono_of_imp
    intro ex _ hex
    unfold avoidNegExample at hex ⊢
    rw [List.all_eq_true] at hex ⊢
    intro s hsmem
    exact hex s (mem_take_of_le _ k1 k2 h hsmem)
  constructor
  · unfold hitAt
    rw [div_eq_mul_inv, div_eq_mul_inv]
    apply mul_le_mul_of_nonneg_right
    · exact_mod_cast hhit
    · exact inv_nonneg.mpr (Nat.cast_nonneg _)
  · unfold avoidNegAt
    rw [div_eq_mul_inv, div_eq_mul_inv]
    apply mul_le_mul_of_nonneg_right
    · exact_mod_cast havoid
    · exact inv_nonneg.mpr (Nat.cast_nonneg _)

/-- Claim C4 witness: the theorem instantiated at a concrete table, dataset
and cutoff pair, the cutoff hypothesis discharged. -/
theorem eval_metrics_monotone_witness :
    hitAt [exFam] exDataset 1 ≤ hitAt [exFam] exDataset 3
    ∧ avoidNegAt [exFam] exDataset 3 ≤ avoidNegAt [exFam] exDataset 1 :=
  eval_metrics_monotone [exFam] exDataset 1 3 (by omega)

theorem dropWhile_head?_ne (p : Char → Bool) (c : Char) (hc : p c = true) (l : Text) :
    (l.dropWhile p).head? ≠ some c := by
  induction l with
  | nil => simp [List.dropWhile]
  | cons a as ih =>
    rw [List.dropWhile_cons]
    split_ifs with h
    · exact ih
    · rw [List.head?_cons]
      intro heq
      rw [Option.some_inj] at heq
      rw [heq] at h
      exact h hc

theorem stripSlashes_no_trailing (sx : Text) :
    (stripSlashes sx).getLast? ≠ some '/' := by
  unfold stripSlashes
  rw [List.getLast?_reverse]
  exact dropWhile_head?_ne (fun c => c == '/') '/' rfl sx.reverse

theorem resolveApiBase_eq_spec (a b : Option Text) :
    resolveApiBase a b = resolveApiBaseSpec a b := by
  have hdef : ¬ (DEFAULT_API_URL = ([] : Text)) := by decide
  unfold resolveApiBase resolveApiBaseSpec jsOr
  cases a with
  | none =>
    cases b with
    | none => simp [hdef]
    | some w => by_cases hw : w = [] <;> simp [hw, hdef]
  | some s =>
    by_cases hs : s = []
    · cases b with
      | none => simp [hs, hdef]
      | some w => by_cases hw : w = [] <;> simp [hs, hw, hdef]
    · simp [hs]

/-- Claim C8: `resolveApiBase` always returns a non-empty string without a
trailing slash, and it equals the claim's selection rule: prefer the
localStorage value, then `window.API_URL`, then the default, strip trailing
slashes, and fall back to the default when stripping leaves nothing. -/
theorem finalize_ne_nil (x : Text) :
    (if stripSlashes x = [] then DEFAULT_API_URL else stripSlashes x) ≠ [] := by
  split_ifs with h
  · decide
  · exact h

theorem finalize_no_slash (x : Text) :
    (if stripSlashes x = [] then DEFAULT_API_URL
      else stripSlashes x).getLast? ≠ some '/' := by
  split_ifs with h
  · decide
  · exact stripSlashes_no_trailing x

theorem resolveApiBase_normalized (a b : Option Text) :
    resolveApiBase a b ≠ []
    ∧ (resolveApiBase a b).getLast? ≠ some '/'
    ∧ resolveApiBase a b = resolveApiBaseSpec a b :=
  ⟨finalize_ne_nil _, finalize_no_slash _, resolveApiBase_eq_spec a b⟩

/-- Claim C9: when the trimmed case summary is shorter than 10 characters or
longer than 8000, or the trimmed details are longer than 12000 characters,
`submitCustomArticle` sends no payload and only sets an error status. -/
theorem submit_validation_blocks (summaryRaw detailsRaw titleRaw sourceRaw topicsRaw : Text)
    (h : (jsTrim summaryRaw).length < 10 ∨ 8000 < (jsTrim summaryRaw).length
      ∨ 12000 < (jsTrim detailsRaw).length) :
    (submitCustomArticle summaryRaw detailsRaw titleRaw sourceRaw topicsRaw).payloadSent = none
    ∧ (submitCustomArticle summaryRaw detailsRaw titleRaw sourceRaw topicsRaw).statusType
        = str "error" := by
  unfold submitCustomArticle
  by_cases h1 : jsTrim summaryRaw = [] ∨ (jsTrim summaryRaw).length < 10
  · rw [if_pos h1]
    exact ⟨rfl, rfl⟩
  · rw [if_neg h1]
    by_cases h2 : 8000 < (jsTrim summaryRaw).length
    · rw [if_pos h2]
      exact ⟨rfl, rfl⟩
    · rw [if_neg h2]
      by_cases h3 : jsTrim detailsRaw ≠ [] ∧ 12000 < (jsTrim detailsRaw).length
      · rw [if_pos h3]
        exact ⟨rfl, rfl⟩
      · exfalso
        rcases h with hl | hl | hl
        · exact h1 (Or.inr hl)
        · exact h2 hl
        · refine h3 ⟨?_, hl⟩
          intro hnil
          rw [hnil] at hl
          simp at hl

/-- Claim C9 witness: the theorem instantiated at a concrete too-short
summary, the validation hypothesis discharged. -/
theorem submit_validation_blocks_witness :
    (submitCustomArticle (str "short") [] [] [] []).payloadSent = none
    ∧ (submitCustomArticle (str "short") [] [] [] []).statusType = str "error" :=
  submit_validation_blocks (str "short") [] [] [] [] (Or.inl (by decide))

/-- Claim C10: every payload actually sent carries a non-empty topics list
whose entries all match `^[a-z0-9_-]+$`, and when no entered topic survives
filtering the list is exactly `["general"]`. -/
theorem submit_topics_wellformed (summaryRaw detailsRaw titleRaw sourceRaw topicsRaw : Text)
    (p : PilPayload)
    (hp : (submitCustomArticle summaryRaw detailsRaw titleRaw sourceRaw topicsRaw).payloadSent
      = some p) :
    p.topics ≠ []
    ∧ p.topics.all topicOk = true
    ∧ (parseTopics (jsTrim topicsRaw) = [] → p.topics = [str "general"]) := by
  unfold submitCustomArticle at hp
  by_cases h1 : jsTrim summaryRaw = [] ∨ (jsTrim summaryRaw).length < 10
  · rw [if_pos h1] at hp
    exact absurd hp (by simp)
  · rw [if_neg h1] at hp
    by_cases h2 : 8000 < (jsTrim summaryRaw).length
    · rw [if_pos h2] at hp
      exact absurd hp (by simp)
    · rw [if_neg h2] at hp
      by_cases h3 : jsTrim detailsRaw ≠ [] ∧ 12000 < (jsTrim detailsRaw).length
      · rw [if_pos h3] at hp
        exact absurd hp (by simp)
      · rw [if_neg h3] at hp
        have htop : p.topics =
            (if parseTopics (jsTrim topicsRaw) = [] then [str "general"]
              else parseTopics (jsTrim topicsRaw)) := by
          have hq := Option.some_inj.mp hp
          rw [← hq]
        rw [htop]
        split_ifs with ht
        · exact ⟨by decide, by decide, fun _ => rfl⟩
        · refine ⟨ht, ?_, fun hcontra => absurd hcontra ht⟩
          rw [List.all_eq_true]
          intro t htm
          unfold parseTopics at htm
          exact (List.mem_filter.mp htm).2

/-- Claim C10 witness: the theorem instantiated at a concrete submission
whose entered topics normalize to one surviving entry, the payload
hypothesis discharged. -/
theorem submit_topics_wellformed_witness :
    exPayload.topics ≠ []
    ∧ exPayload.topics.all topicOk = true
    ∧ (parseTopics (jsTrim (str "Civil Rights")) = [] → exPayload.topics = [str "general"]) :=
  submit_topics_wellformed (str "a long enough case summary") [] [] [] (str "Civil Rights")
    exPayload (by decide)

end NyayLens
